import Mathlib

/-!
Verification of the personal finance ledger (Express + SQLite server in
`server.ts`, aggregation views in `App.tsx`) against its specification.

The server state is the `transactions` table together with the
AUTOINCREMENT sequence.  Amounts (SQL `REAL`) are modelled as exact
rationals; `created_at` timestamps as natural numbers; `date`,
`type`, `category` as strings, exactly as the TEXT columns store them.
-/

namespace Ledger

/-- One row of the `transactions` table (`CREATE TABLE transactions` in
`server.ts`): `id INTEGER PRIMARY KEY AUTOINCREMENT`, `amount REAL NOT NULL`,
`type TEXT CHECK(type IN ('income','expense')) NOT NULL`,
`category TEXT NOT NULL`, `description TEXT` (nullable), `date TEXT NOT NULL`,
`created_at DATETIME DEFAULT CURRENT_TIMESTAMP`. -/
structure Row where
  id : Nat
  amount : ℚ
  type : String
  category : String
  description : Option String
  date : String
  created_at : Nat
deriving DecidableEq, Repr

/-- The database: rows in insertion (rowid) order, together with the next
AUTOINCREMENT id.  A fresh database starts with `rows = []`, `nextId = 1`
(SQLite assigns 1 to the first inserted row). -/
structure DB where
  rows : List Row
  nextId : Nat
deriving DecidableEq, Repr

/-- The JSON body of `POST /api/transactions` as destructured by
`const { amount, type, category, description, date } = req.body`.
`none` models an absent (or `null`) field. -/
structure ReqBody where
  amount : Option ℚ
  type : Option String
  category : Option String
  description : Option String
  date : Option String
deriving DecidableEq, Repr

/-- Outcome of `POST /api/transactions`: `ok id` is the 200 response
`{ id: info.lastInsertRowid }`; `badRequest` is the 400 response
`{ error: "Missing required fields" }`; `serverError` is the 500 response
`{ error: "Failed to add transaction" }` produced when the INSERT throws. -/
inductive PostResult where
  | ok (id : Nat)
  | badRequest
  | serverError
deriving DecidableEq, Repr

/-- JavaScript falsiness of an optional string field: absent, `null`, or
the empty string make `!field` true. -/
def falsyStr : Option String → Bool
  | none => true
  | some s => s == ""

/-- JavaScript falsiness of the `amount` field: absent, `null`, or the
number `0` make `!amount` true. -/
def falsyAmount : Option ℚ → Bool
  | none => true
  | some a => a == 0

/-- The guard `if (!amount || !type || !category || !date)` of the POST
handler in `server.ts`. -/
def missingFields (b : ReqBody) : Bool :=
  falsyAmount b.amount || falsyStr b.type || falsyStr b.category || falsyStr b.date

/-- `app.post("/api/transactions")` from `server.ts`: reject falsy required
fields with 400, then run the INSERT.  The table constraint
`CHECK(type IN ('income','expense'))` makes the INSERT throw for any other
`type` value, which the handler catches and reports as the 500 response.
On success the row is appended with `id = nextId` (AUTOINCREMENT) and
`created_at = now` (CURRENT_TIMESTAMP), and the id is returned.  -/
def postTransaction (db : DB) (b : ReqBody) (now : Nat) : DB × PostResult :=
  if missingFields b then
    (db, PostResult.badRequest)
  else
    match b.amount, b.type, b.category, b.date with
    | some a, some ty, some c, some d =>
        if ty == "income" || ty == "expense" then
          ({ rows := db.rows ++ [{ id := db.nextId, amount := a, type := ty,
                                   category := c, description := b.description,
                                   date := d, created_at := now }],
             nextId := db.nextId + 1 },
           PostResult.ok db.nextId)
        else
          (db, PostResult.serverError)
    | _, _, _, _ => (db, PostResult.badRequest)

/-- The comparator realising `ORDER BY date DESC, created_at DESC` of
`GET /api/transactions`: `a` comes before `b` when `a.date` is
lexicographically greater, with ties broken by later `created_at` first
(TEXT columns compare bytewise, which on these strings is the
lexicographic order of their character lists). -/
def rowLe (a b : Row) : Bool :=
  decide (b.date.toList < a.date.toList) ||
    (a.date == b.date && decide (b.created_at ≤ a.created_at))

/-- `app.get("/api/transactions")` from `server.ts`:
`SELECT * FROM transactions ORDER BY date DESC, created_at DESC`. -/
def getTransactions (db : DB) : List Row :=
  db.rows.mergeSort rowLe

/-- The response of `GET /api/stats`.  SQLite `SUM` yields NULL (JSON
`null`) over the empty table, hence the `Option`. -/
structure Stats where
  total_income : Option ℚ
  total_expense : Option ℚ
deriving DecidableEq, Repr

/-- SQLite `SUM` of a column expression over the selected rows: NULL when
there are no rows, otherwise the sum of the values. -/
def sqlSum (l : List ℚ) : Option ℚ :=
  if l = [] then none else some l.sum

/-- `app.get("/api/stats")` from `server.ts`:
`SUM(CASE WHEN type = 'income' THEN amount ELSE 0 END) as total_income` and
the analogous expression for `total_expense`, over all rows. -/
def getStats (db : DB) : Stats :=
  { total_income := sqlSum (db.rows.map fun r => if r.type == "income" then r.amount else 0)
  , total_expense := sqlSum (db.rows.map fun r => if r.type == "expense" then r.amount else 0) }

/-- The whitespace characters SQLite skips around a numeric literal
(codepoints 9–13 and 32). -/
def sqliteSpace (c : Char) : Bool :=
  c.toNat == 32 || (decide (9 ≤ c.toNat) && decide (c.toNat ≤ 13))

/-- Decimal digit (codepoints 48–57). -/
def sqliteDigit (c : Char) : Bool :=
  decide (48 ≤ c.toNat) && decide (c.toNat ≤ 57)

/-- The natural number denoted by a digit string. -/
def digitsToNat (ds : List Char) : Nat :=
  ds.foldl (fun acc c => acc * 10 + (c.toNat - 48)) 0

/-- Multiply by a power of ten (apply a nonnegative decimal exponent). -/
def shift10 : Int → Nat → Int
  | x, 0 => x
  | x, n + 1 => shift10 (x * 10) n

/-- Divide by a power of ten when the division is exact; `none` when the
value is not an integral multiple of that power. -/
def unshift10 : Nat → Nat → Option Nat
  | m, 0 => some m
  | m, n + 1 => if m % 10 = 0 then unshift10 (m / 10) n else none

/-- Exponent suffix of a SQLite numeric literal: either only trailing
whitespace (exponent 0), or `e`/`E` (codepoints 101/69), an optional
sign (codepoints 43/45), one or more digits, and trailing whitespace.
`none` when the remaining text is not of this shape — the whole literal
is then not numeric. -/
def parseExpDigits (sgn : Int) (cs : List Char) : Option Int :=
  let ds := cs.takeWhile sqliteDigit
  let rest := cs.dropWhile sqliteDigit
  if ds.isEmpty then none
  else if rest.all sqliteSpace then some (sgn * (digitsToNat ds : Int)) else none

def parseExp (cs : List Char) : Option Int :=
  if cs.all sqliteSpace then some 0
  else
    match cs with
    | [] => none
    | c :: rest =>
        if c.toNat == 69 || c.toNat == 101 then
          match rest with
          | [] => none
          | c2 :: r2 =>
              if c2.toNat == 43 then parseExpDigits 1 r2
              else if c2.toNat == 45 then parseExpDigits (-1) r2
              else parseExpDigits 1 rest
        else none

/-- SQLite's treatment of the TEXT path parameter in
`DELETE FROM transactions WHERE id = ?`: the INTEGER affinity of `id`
converts the text to a number exactly when the whole text, modulo
surrounding whitespace, is a well-formed numeric literal — optional sign
(codepoints 43/45), digits with an optional decimal point (codepoint 46)
and fraction, and an optional exponent — and the DELETE then removes
exactly the rows whose integer key equals that number (so `'1.0'`,
`'+2'`, `' 3 '`, `'3e0'` all match an integer id).  `parseIdParam`
returns the integer key the text matches: `none` when the text is not
numeric, or when its exact value is not an integer — a non-integral
number equals no INTEGER key, so the DELETE matches no row either way. -/
def parseIdParam (s : String) : Option Int :=
  let cs0 := s.toList.dropWhile sqliteSpace
  let neg : Bool :=
    match cs0 with
    | c :: _ => c.toNat == 45
    | [] => false
  let cs1 :=
    match cs0 with
    | c :: rest => if c.toNat == 43 || c.toNat == 45 then rest else cs0
    | [] => cs0
  let ipart := cs1.takeWhile sqliteDigit
  let cs2 := cs1.dropWhile sqliteDigit
  let hasDot : Bool :=
    match cs2 with
    | c :: _ => c.toNat == 46
    | [] => false
  let cs3 := if hasDot then cs2.tail else cs2
  let fpart := if hasDot then cs3.takeWhile sqliteDigit else []
  let cs4 := if hasDot then cs3.dropWhile sqliteDigit else cs3
  if ipart.isEmpty && fpart.isEmpty then none
  else
    match parseExp cs4 with
    | none => none
    | some e =>
        let mant := digitsToNat (ipart ++ fpart)
        let sgn : Int := if neg then -1 else 1
        let e10 : Int := e - (fpart.length : Int)
        if 0 ≤ e10 then some (sgn * shift10 (mant : Int) e10.toNat)
        else
          match unshift10 mant (-e10).toNat with
          | some m => some (sgn * (m : Int))
          | none => none

/-- `app.delete("/api/transactions/:id")` from `server.ts`: run the DELETE
and answer `{ success: true }`.  A parameter that converts to an integer
removes exactly the rows with that id; one that does not convert matches
no INTEGER key, so the DELETE affects no rows.  Either way the handler
reports success. -/
def deleteTransaction (db : DB) (idParam : String) : DB × Bool :=
  match parseIdParam idParam with
  | some i => ({ db with rows := db.rows.filter fun r => !((r.id : Int) == i) }, true)
  | none => (db, true)

/-- Association-list lookup by string key, comparing with `=` (JavaScript
object property access). -/
def alookup {β : Type} (k : String) : List (String × β) → Option β
  | [] => none
  | (k0, b) :: rest => if k0 = k then some b else alookup k rest

/-- `acc[k] = f(acc[k])` on a JavaScript object modelled as an
insertion-ordered association list: an existing key is updated in place,
a new key is appended at the end. -/
def objUpdate {β : Type} : List (String × β) → String → (Option β → β) → List (String × β)
  | [], k, f => [(k, f none)]
  | (k0, b) :: rest, k, f =>
      if k0 = k then (k0, f (some b)) :: rest
      else (k0, b) :: objUpdate rest k f

/-- `categoryData` from `App.tsx`: expense records reduced into an object
by `acc[t.category] = (acc[t.category] || 0) + t.amount`, then read off as
(name, value) pairs via `Object.entries`. -/
def categoryData (ts : List Row) : List (String × ℚ) :=
  (ts.filter fun t => t.type == "expense").foldl
    (fun acc t => objUpdate acc t.category fun o => o.getD 0 + t.amount) []

/-- The `grouped` object of the transaction list in `App.tsx`:
`transactions.reduce` pushing each record onto `groups[t.date]`
(creating the key at first sight). -/
def groupedByDate (ts : List Row) : List (String × List Row) :=
  ts.foldl (fun acc t => objUpdate acc t.date fun o => o.getD [] ++ [t]) []

/-- The key comparator `Object.keys(grouped).sort((a, b) => b.localeCompare(a))`
from `App.tsx`: descending lexicographic order on the date strings. -/
def keyDesc (a b : String × List Row) : Bool :=
  !(decide (a.1.toList < b.1.toList))

/-- The daily view of `App.tsx`: the groups of `grouped`, presented in
descending order of their date keys. -/
def dailyGroups (ts : List Row) : List (String × List Row) :=
  (groupedByDate ts).mergeSort keyDesc

/-- The per-day total of `App.tsx`:
`grouped[date].filter(t => t.type === 'expense').reduce((sum, t) => sum + t.amount, 0)`. -/
def dayExpenseTotal (g : List Row) : ℚ :=
  ((g.filter fun t => t.type == "expense").map fun t => t.amount).sum

/-- State invariant maintained by the store: ids strictly increase along
insertion order (hence are unique), every id is below the AUTOINCREMENT
counter, and every stored row passed the POST handler's checks:
`type` is one of the two allowed values (table CHECK constraint), and
`amount`, `category`, `date` were not falsy. -/
def Inv (db : DB) : Prop :=
  List.Pairwise (fun r1 r2 => r1.id < r2.id) db.rows ∧
    ∀ r ∈ db.rows, r.id < db.nextId ∧ (r.type = "income" ∨ r.type = "expense") ∧
      r.amount ≠ 0 ∧ r.category ≠ "" ∧ r.date ≠ ""

/-- The states reachable from the fresh database through the two mutating
endpoints. -/
inductive Reachable : DB → Prop where
  | init : Reachable ⟨[], 1⟩
  | post (db : DB) (b : ReqBody) (now : Nat) :
      Reachable db → Reachable (postTransaction db b now).1
  | del (db : DB) (s : String) :
      Reachable db → Reachable (deleteTransaction db s).1

/-! ### Order lemmas for the comparators -/

lemma toList_lt_iff (a b : String) : decide (a.toList < b.toList) = true ↔ a < b := by
  rw [decide_eq_true_eq]
  exact String.lt_iff_toList_lt.symm

lemma rowLe_iff (a b : Row) :
    rowLe a b = true ↔
      b.date < a.date ∨ (a.date = b.date ∧ b.created_at ≤ a.created_at) := by
  unfold rowLe
  rw [Bool.or_eq_true, Bool.and_eq_true, toList_lt_iff]
  constructor
  · rintro (h | ⟨h1, h2⟩)
    · exact Or.inl h
    · exact Or.inr ⟨by simpa using h1, by simpa using h2⟩
  · rintro (h | ⟨h1, h2⟩)
    · exact Or.inl h
    · exact Or.inr ⟨by simpa using h1, by simpa using h2⟩

lemma rowLe_trans (a b c : Row) :
    rowLe a b = true → rowLe b c = true → rowLe a c = true := by
  intro hab hbc
  rw [rowLe_iff] at hab hbc ⊢
  rcases hab with h1 | ⟨e1, t1⟩
  · rcases hbc with h2 | ⟨e2, t2⟩
    · exact Or.inl (lt_trans h2 h1)
    · exact Or.inl (e2 ▸ h1)
  · rcases hbc with h2 | ⟨e2, t2⟩
    · exact Or.inl (e1 ▸ h2)
    · exact Or.inr ⟨e1.trans e2, le_trans t2 t1⟩

lemma rowLe_total (a b : Row) : (rowLe a b || rowLe b a) = true := by
  rw [Bool.or_eq_true, rowLe_iff, rowLe_iff]
  rcases lt_trichotomy a.date b.date with h | h | h
  · exact Or.inr (Or.inl h)
  · rcases Nat.le_total a.created_at b.created_at with ht | ht
    · exact Or.inr (Or.inr ⟨h.symm, ht⟩)
    · exact Or.inl (Or.inr ⟨h, ht⟩)
  · exact Or.inl (Or.inl h)

lemma keyDesc_iff (a b : String × List Row) : keyDesc a b = true ↔ b.1 ≤ a.1 := by
  unfold keyDesc
  rw [Bool.not_eq_true', decide_eq_false_iff_not, ← String.lt_iff_toList_lt, not_lt]

lemma keyDesc_trans (a b c : String × List Row) :
    keyDesc a b = true → keyDesc b c = true → keyDesc a c = true := by
  intro hab hbc
  rw [keyDesc_iff] at hab hbc ⊢
  exact le_trans hbc hab

lemma keyDesc_total (a b : String × List Row) : (keyDesc a b || keyDesc b a) = true := by
  rw [Bool.or_eq_true, keyDesc_iff, keyDesc_iff]
  exact le_total b.1 a.1

/-! ### Sum lemmas -/

lemma sum_map_ite (p : Row → Bool) (f : Row → ℚ) (l : List Row) :
    (l.map fun r => if p r then f r else 0).sum = ((l.filter p).map f).sum := by
  induction l with
  | nil => simp
  | cons r l ih =>
      by_cases h : p r <;> simp [List.filter_cons, h, ih]

/-! ### Behavior of `getTransactions` (claim about `list()`) -/

/-- C5: `list()` returns all stored records (a permutation of the table),
sorted by `date` descending with ties on equal dates broken by
`created_at` descending. -/
theorem getTransactions_sorted (db : DB) :
    (getTransactions db).Perm db.rows ∧
      List.Pairwise
        (fun a b : Row => b.date < a.date ∨ (a.date = b.date ∧ b.created_at ≤ a.created_at))
        (getTransactions db) := by
  refine ⟨List.mergeSort_perm db.rows rowLe, ?_⟩
  exact (List.sorted_mergeSort rowLe_trans rowLe_total db.rows).imp
    (fun h => (rowLe_iff _ _).mp h)

/-! ### Behavior of `getStats` (claims about `totals()`) -/

lemma getStats_of_empty {db : DB} (h : db.rows = []) : getStats db = ⟨none, none⟩ := by
  simp [getStats, sqlSum, h]

lemma getStats_of_nonempty {db : DB} (h : db.rows ≠ []) :
    getStats db =
      ⟨some (((db.rows.filter fun r => r.type == "income").map fun r => r.amount).sum),
       some (((db.rows.filter fun r => r.type == "expense").map fun r => r.amount).sum)⟩ := by
  simp only [getStats, sqlSum, List.map_eq_nil_iff, sum_map_ite]
  rw [if_neg h, if_neg h]

/-- C2 counterexample: on the empty store `getStats` yields SQL NULL
(`none`) for both totals, which is not the number `0` — SQLite `SUM`
over zero rows is NULL, so the claimed `0` is wrong for the empty
store. -/
theorem getStats_empty_is_null :
    getStats ⟨[], 1⟩ = ⟨none, none⟩ ∧ (none : Option ℚ) ≠ some 0 :=
  ⟨rfl, by simp⟩

/-- C2 amended: on every non-empty store, `totals().total_income` is the
sum of `amount` over stored records with `type = income`, and
`total_expense` the sum over those with `type = expense`; on the empty
store both fields are NULL (`none`), not `0`. -/
theorem getStats_totals (db : DB) :
    (db.rows = [] → getStats db = ⟨none, none⟩) ∧
    (db.rows ≠ [] →
      getStats db =
        ⟨some (((db.rows.filter fun r => r.type == "income").map fun r => r.amount).sum),
         some (((db.rows.filter fun r => r.type == "expense").map fun r => r.amount).sum)⟩) :=
  ⟨fun h => getStats_of_empty h, fun h => getStats_of_nonempty h⟩

theorem getStats_totals_witness :
    getStats ⟨[], 1⟩ = ⟨none, none⟩ ∧
      getStats ⟨[⟨1, 5, "income", "salary", none, "2024-01-01", 0⟩], 2⟩ = ⟨some 5, some 0⟩ := by
  constructor
  · exact (getStats_totals ⟨[], 1⟩).1 rfl
  · rw [(getStats_totals ⟨[⟨1, 5, "income", "salary", none, "2024-01-01", 0⟩], 2⟩).2 (by simp)]
    simp [List.filter]

/-! ### Behavior of `postTransaction` (claims about `append`) -/

/-- C1 counterexample: an append with `amount = -5 ≤ 0` (and otherwise
well-formed fields) is not rejected: it succeeds with a fresh id and
changes `list()` from empty to one record, contradicting the claimed
`ValidationError` with no observable effect. -/
theorem post_negative_amount_accepted :
    ((-5 : ℚ) < 0) ∧
    (postTransaction ⟨[], 1⟩ ⟨some (-5), some "expense", some "food", some "", some "2024-01-01"⟩ 0).2
        = PostResult.ok 1 ∧
    (getTransactions
        (postTransaction ⟨[], 1⟩ ⟨some (-5), some "expense", some "food", some "", some "2024-01-01"⟩ 0).1).length
        = 1 := by
  refine ⟨by norm_num, ?_, ?_⟩
  · simp [postTransaction, missingFields, falsyAmount, falsyStr, beq_eq_false_iff_ne]
  · rw [getTransactions,
      (List.mergeSort_perm
        (postTransaction ⟨[], 1⟩
          ⟨some (-5), some "expense", some "food", some "", some "2024-01-01"⟩ 0).1.rows
        rowLe).length_eq]
    simp [postTransaction, missingFields, falsyAmount, falsyStr, beq_eq_false_iff_ne]

/-- C1 amended: `append` fails with the 400 `ValidationError` and leaves
the store unchanged exactly when a required field is JavaScript-falsy
(`amount` absent or `0`, `type`/`category`/`date` absent or empty); a
`type` outside {income, expense} also leaves the store unchanged but is
reported as the 500 storage fault, not as a validation error; negative
amounts and malformed non-empty dates are accepted (see the
counterexample). -/
theorem post_validation (db : DB) (b : ReqBody) (now : Nat) :
    (missingFields b = true → postTransaction db b now = (db, PostResult.badRequest)) ∧
    (missingFields b = false → ∀ ty, b.type = some ty → ty ≠ "income" → ty ≠ "expense" →
      postTransaction db b now = (db, PostResult.serverError)) := by
  constructor
  · intro h
    simp [postTransaction, h]
  · intro h ty hty h1 h2
    rcases hba : b.amount with _ | a
    · rw [missingFields, hba] at h; simp [falsyAmount] at h
    rcases hbc : b.category with _ | c
    · rw [missingFields, hbc] at h; simp [falsyStr] at h
    rcases hbd : b.date with _ | d
    · rw [missingFields, hbd] at h; simp [falsyStr] at h
    simp [postTransaction, h, hba, hty, hbc, hbd, h1, h2]

theorem post_validation_witness :
    postTransaction ⟨[], 1⟩ ⟨none, some "expense", some "food", none, some "2024-01-01"⟩ 0
        = (⟨[], 1⟩, PostResult.badRequest) ∧
    postTransaction ⟨[], 1⟩ ⟨some 7, some "transfer", some "food", none, some "2024-01-01"⟩ 0
        = (⟨[], 1⟩, PostResult.serverError) := by
  constructor
  · exact (post_validation ⟨[], 1⟩ ⟨none, some "expense", some "food", none, some "2024-01-01"⟩ 0).1
      (by simp [missingFields, falsyAmount])
  · exact (post_validation ⟨[], 1⟩ ⟨some 7, some "transfer", some "food", none, some "2024-01-01"⟩ 0).2
      (by simp [missingFields, falsyAmount, falsyStr, beq_eq_false_iff_ne])
      "transfer" rfl (by decide) (by decide)

/-! ### Behavior of `deleteTransaction` (claims about `delete`) -/

/-- C4: for an id that the path parameter denotes, `delete` removes
exactly the records with that id and keeps every other record, leaves the
id counter alone, always acknowledges success, and a second identical
delete succeeds without changing the store further. -/
theorem delete_removes_exactly (db : DB) (s : String) (i : Int)
    (hs : parseIdParam s = some i) :
    (deleteTransaction db s).2 = true ∧
    (∀ r : Row, r ∈ (deleteTransaction db s).1.rows ↔ r ∈ db.rows ∧ (r.id : Int) ≠ i) ∧
    (deleteTransaction db s).1.nextId = db.nextId ∧
    deleteTransaction (deleteTransaction db s).1 s = ((deleteTransaction db s).1, true) := by
  unfold deleteTransaction
  rw [hs]
  dsimp only
  refine ⟨rfl, ?_, rfl, ?_⟩
  · intro r
    simp [List.mem_filter]
  · rw [List.filter_filter]
    simp only [Bool.and_self]

theorem delete_removes_exactly_witness :
    (deleteTransaction ⟨[⟨1, 3, "income", "salary", none, "2024-01-01", 0⟩,
                         ⟨2, 4, "expense", "food", none, "2024-01-02", 1⟩], 3⟩ "1").2 = true ∧
    (∀ r : Row,
      r ∈ (deleteTransaction ⟨[⟨1, 3, "income", "salary", none, "2024-01-01", 0⟩,
                               ⟨2, 4, "expense", "food", none, "2024-01-02", 1⟩], 3⟩ "1").1.rows ↔
        r ∈ [⟨1, 3, "income", "salary", none, "2024-01-01", 0⟩,
             ⟨2, 4, "expense", "food", none, "2024-01-02", 1⟩] ∧ (r.id : Int) ≠ 1) ∧
    (deleteTransaction ⟨[⟨1, 3, "income", "salary", none, "2024-01-01", 0⟩,
                         ⟨2, 4, "expense", "food", none, "2024-01-02", 1⟩], 3⟩ "1").1.nextId = 3 ∧
    deleteTransaction
        (deleteTransaction ⟨[⟨1, 3, "income", "salary", none, "2024-01-01", 0⟩,
                             ⟨2, 4, "expense", "food", none, "2024-01-02", 1⟩], 3⟩ "1").1 "1"
      = ((deleteTransaction ⟨[⟨1, 3, "income", "salary", none, "2024-01-01", 0⟩,
                              ⟨2, 4, "expense", "food", none, "2024-01-02", 1⟩], 3⟩ "1").1, true) :=
  delete_removes_exactly
    ⟨[⟨1, 3, "income", "salary", none, "2024-01-01", 0⟩,
      ⟨2, 4, "expense", "food", none, "2024-01-02", 1⟩], 3⟩ "1" 1 (by decide)

lemma alookup_objUpdate {β : Type} (acc : List (String × β)) (k k' : String) (f : Option β → β) :
    alookup k' (objUpdate acc k f) =
      if k' = k then some (f (alookup k' acc)) else alookup k' acc := by
  induction acc with
  | nil =>
      by_cases h : k' = k
      · subst h
        simp [objUpdate, alookup]
      · rw [if_neg h]
        simp only [objUpdate, alookup]
        rw [if_neg fun hk => h hk.symm]
  | cons p rest ih =>
      obtain ⟨k0, b⟩ := p
      by_cases h0 : k0 = k
      · subst h0
        by_cases h' : k' = k0
        · subst h'
          simp [objUpdate, alookup]
        · rw [if_neg h']
          simp only [objUpdate, if_pos rfl, alookup]
          rw [if_neg fun hk => h' hk.symm, if_neg fun hk => h' hk.symm]
      · by_cases h' : k0 = k'
        · subst h'
          rw [if_neg h0]
          simp [objUpdate, h0, alookup]
        · simp only [objUpdate, if_neg h0, alookup, if_neg h', ih]

lemma keys_objUpdate {β : Type} (acc : List (String × β)) (k : String) (f : Option β → β) :
    (objUpdate acc k f).map Prod.fst =
      if k ∈ acc.map Prod.fst then acc.map Prod.fst else acc.map Prod.fst ++ [k] := by
  induction acc with
  | nil => simp [objUpdate]
  | cons p rest ih =>
      obtain ⟨k0, b⟩ := p
      by_cases h0 : k0 = k
      · subst h0
        simp [objUpdate]
      · have hne : k ≠ k0 := fun hk => h0 hk.symm
        simp only [objUpdate, if_neg h0, List.map_cons, List.mem_cons, ih]
        by_cases hm : k ∈ rest.map Prod.fst
        · simp [hm, hne]
        · simp [hm, hne]

lemma nodup_keys_objUpdate {β : Type} {acc : List (String × β)} (k : String)
    (f : Option β → β) (h : (acc.map Prod.fst).Nodup) :
    ((objUpdate acc k f).map Prod.fst).Nodup := by
  rw [keys_objUpdate]
  by_cases hm : k ∈ acc.map Prod.fst
  · rwa [if_pos hm]
  · rw [if_neg hm]
    exact List.Nodup.append h (List.nodup_singleton k)
      fun a ha hk' => hm ((List.mem_singleton.mp hk') ▸ ha)

lemma snd_sum_objUpdate (acc : List (String × ℚ)) (k : String) (v : ℚ) :
    ((objUpdate acc k fun o => o.getD 0 + v).map Prod.snd).sum =
      (acc.map Prod.snd).sum + v := by
  induction acc with
  | nil => simp [objUpdate]
  | cons p rest ih =>
      obtain ⟨k0, b⟩ := p
      by_cases h0 : k0 = k
      · simp [objUpdate, h0]
        ring
      · simp [objUpdate, h0, ih]
        ring

lemma alookup_of_mem {β : Type} {l : List (String × β)} (h : (l.map Prod.fst).Nodup)
    {k : String} {b : β} (hm : (k, b) ∈ l) : alookup k l = some b := by
  induction l with
  | nil => cases hm
  | cons p rest ih =>
      obtain ⟨k0, b0⟩ := p
      rw [List.map_cons, List.nodup_cons] at h
      rcases List.mem_cons.mp hm with he | ht
      · injection he with h1 h2
        subst h1
        subst h2
        simp [alookup]
      · have hk0 : k0 ≠ k := by
          intro hk
          subst hk
          exact h.1 (show Prod.fst (k0, b) ∈ List.map Prod.fst rest from
            List.mem_map_of_mem Prod.fst ht)
        rw [alookup, if_neg hk0]
        exact ih h.2 ht

lemma mem_of_alookup {β : Type} {l : List (String × β)} {k : String} {b : β}
    (h : alookup k l = some b) : (k, b) ∈ l := by
  induction l with
  | nil => simp [alookup] at h
  | cons p rest ih =>
      obtain ⟨k0, b0⟩ := p
      by_cases h0 : k0 = k
      · subst h0
        rw [alookup, if_pos rfl] at h
        obtain rfl := Option.some.injEq .. ▸ h
        exact List.mem_cons_self _ _
      · rw [alookup, if_neg h0] at h
        exact List.mem_cons_of_mem _ (ih h)

lemma alookup_eq_none {β : Type} {l : List (String × β)} {k : String} :
    alookup k l = none ↔ k ∉ l.map Prod.fst := by
  induction l with
  | nil => simp [alookup]
  | cons p rest ih =>
      obtain ⟨k0, b0⟩ := p
      rw [List.map_cons, List.mem_cons, alookup]
      by_cases h0 : k0 = k
      · subst h0
        simp
      · rw [if_neg h0, ih]
        constructor
        · rintro hn (he | hmem)
          · exact h0 he.symm
          · exact hn hmem
        · intro hn hmem
          exact hn (Or.inr hmem)

/-- `alookup` is order-insensitive across permutations once the keys are
distinct. -/
lemma alookup_perm {β : Type} {l1 l2 : List (String × β)} (hp : l1.Perm l2)
    (h : (l1.map Prod.fst).Nodup) (k : String) : alookup k l1 = alookup k l2 := by
  cases h2 : alookup k l2 with
  | some b => exact alookup_of_mem h (hp.mem_iff.mpr (mem_of_alookup h2))
  | none =>
      rw [alookup_eq_none] at h2 ⊢
      exact fun hm => h2 ((hp.map Prod.fst).mem_iff.mp hm)

/-! ### The category breakdown of `App.tsx` -/

lemma alookup_catFold (es : List Row) :
    ∀ (acc : List (String × ℚ)) (c : String),
      alookup c (es.foldl (fun acc t => objUpdate acc t.category fun o => o.getD 0 + t.amount) acc) =
        if ((alookup c acc).isSome || es.any fun t => t.category == c) then
          some ((alookup c acc).getD 0 +
            ((es.filter fun t => t.category == c).map fun t => t.amount).sum)
        else none := by
  induction es with
  | nil =>
      intro acc c
      cases h : alookup c acc <;> simp [h]
  | cons t es ih =>
      intro acc c
      rw [List.foldl_cons, ih, alookup_objUpdate]
      by_cases hc : c = t.category
      · have hbeq : (t.category == c) = true := by simp [hc]
        simp only [if_pos hc, List.any_cons, hbeq, Bool.true_or, Bool.or_true,
          Option.isSome_some, Bool.true_or, List.filter_cons, hbeq, if_pos,
          Option.getD_some, List.map_cons, List.sum_cons]
        cases h : alookup c acc <;> (simp [h]; try ring)
      · have hbeq : (t.category == c) = false := by
          rw [beq_eq_false_iff_ne]
          exact fun h => hc h.symm
        simp only [if_neg hc, List.any_cons, hbeq, Bool.false_or, List.filter_cons]
        simp [hbeq]

lemma nodup_keys_catFold (es : List Row) :
    ∀ acc : List (String × ℚ), (acc.map Prod.fst).Nodup →
      ((es.foldl (fun acc t => objUpdate acc t.category fun o => o.getD 0 + t.amount) acc).map
        Prod.fst).Nodup := by
  induction es with
  | nil => intro acc h; simpa using h
  | cons t es ih => intro acc h; exact ih _ (nodup_keys_objUpdate _ _ h)

lemma snd_sum_catFold (es : List Row) :
    ∀ acc : List (String × ℚ),
      ((es.foldl (fun acc t => objUpdate acc t.category fun o => o.getD 0 + t.amount) acc).map
          Prod.snd).sum =
        (acc.map Prod.snd).sum + (es.map fun t => t.amount).sum := by
  induction es with
  | nil => intro acc; simp
  | cons t es ih =>
      intro acc
      rw [List.foldl_cons, ih, snd_sum_objUpdate]
      simp only [List.map_cons, List.sum_cons]
      ring

/-! ### The daily grouping of `App.tsx` -/

lemma alookup_groupFold (es : List Row) :
    ∀ (acc : List (String × List Row)) (d : String),
      alookup d (es.foldl (fun acc t => objUpdate acc t.date fun o => o.getD [] ++ [t]) acc) =
        if ((alookup d acc).isSome || es.any fun t => t.date == d) then
          some ((alookup d acc).getD [] ++ es.filter fun t => t.date == d)
        else none := by
  induction es with
  | nil =>
      intro acc d
      cases h : alookup d acc <;> simp [h]
  | cons t es ih =>
      intro acc d
      rw [List.foldl_cons, ih, alookup_objUpdate]
      by_cases hd : d = t.date
      · have hbeq : (t.date == d) = true := by simp [hd]
        simp only [if_pos hd, List.any_cons, hbeq, Bool.true_or, Bool.or_true,
          Option.isSome_some, List.filter_cons, if_pos, Option.getD_some]
        cases h : alookup d acc <;> simp [h]
      · have hbeq : (t.date == d) = false := by
          rw [beq_eq_false_iff_ne]
          exact fun h => hd h.symm
        simp only [if_neg hd, List.any_cons, hbeq, Bool.false_or, List.filter_cons]
        simp [hbeq]

lemma nodup_keys_groupFold (es : List Row) :
    ∀ acc : List (String × List Row), (acc.map Prod.fst).Nodup →
      ((es.foldl (fun acc t => objUpdate acc t.date fun o => o.getD [] ++ [t]) acc).map
        Prod.fst).Nodup := by
  induction es with
  | nil => intro acc h; simpa using h
  | cons t es ih => intro acc h; exact ih _ (nodup_keys_objUpdate _ _ h)

lemma nodup_keys_groupedByDate (ts : List Row) :
    ((groupedByDate ts).map Prod.fst).Nodup :=
  nodup_keys_groupFold ts [] (by simp)

lemma nodup_keys_dailyGroups (ts : List Row) :
    ((dailyGroups ts).map Prod.fst).Nodup :=
  (((List.mergeSort_perm (groupedByDate ts) keyDesc).map Prod.fst).nodup_iff).mpr
    (nodup_keys_groupedByDate ts)

lemma alookup_dailyGroups (ts : List Row) (d : String) :
    alookup d (dailyGroups ts) =
      if (ts.any fun t => t.date == d) then some (ts.filter fun t => t.date == d) else none := by
  unfold dailyGroups
  rw [alookup_perm (List.mergeSort_perm (groupedByDate ts) keyDesc)
      (((List.mergeSort_perm (groupedByDate ts) keyDesc).map Prod.fst).nodup_iff.mpr
        (nodup_keys_groupedByDate ts)) d]
  have h := alookup_groupFold ts [] d
  simpa [groupedByDate, alookup] using h

/-! ### Claims about `category_breakdown` and `daily_breakdown` -/

/-- C6 counterexample: on the empty store the category breakdown is
empty, so its value-sum is the number `0`, while `totals().total_expense`
is NULL (`none`); the claimed equality between the breakdown sum and
`totals().total_expense` therefore fails on the empty store. -/
theorem categoryData_sum_ne_stats_on_empty :
    ((categoryData (getTransactions ⟨[], 1⟩)).map Prod.snd).sum = 0 ∧
    (getStats ⟨[], 1⟩).total_expense = none ∧
    (getStats ⟨[], 1⟩).total_expense ≠
      some (((categoryData (getTransactions ⟨[], 1⟩)).map Prod.snd).sum) := by
  have hnil : getTransactions ⟨[], 1⟩ = [] :=
    (List.mergeSort_perm ([] : List Row) rowLe).eq_nil
  refine ⟨?_, rfl, ?_⟩
  · rw [hnil]
    rfl
  · rw [hnil]
    intro h
    cases h

/-- C6 amended: the expense category breakdown has pairwise-distinct
category keys; a category is present exactly when some expense record
carries it, and then maps to the sum of `amount` over that category's
expense records; the sum of all breakdown values equals the sum of all
expense amounts, which equals `totals().total_expense` on every
NON-empty store (on the empty store `total_expense` is NULL while the
breakdown sum is `0`). -/
theorem categoryData_breakdown (db : DB) :
    ((categoryData (getTransactions db)).map Prod.fst).Nodup ∧
    (∀ c : String,
      alookup c (categoryData (getTransactions db)) =
        if (((getTransactions db).filter fun t => t.type == "expense").any
              fun t => t.category == c) then
          some ((((((getTransactions db).filter fun t => t.type == "expense").filter
              fun t => t.category == c)).map fun t => t.amount).sum)
        else none) ∧
    (((categoryData (getTransactions db)).map Prod.snd).sum =
      (((getTransactions db).filter fun t => t.type == "expense").map fun t => t.amount).sum) ∧
    (db.rows ≠ [] →
      (getStats db).total_expense =
        some (((categoryData (getTransactions db)).map Prod.snd).sum)) := by
  have hsum : ((categoryData (getTransactions db)).map Prod.snd).sum =
      (((getTransactions db).filter fun t => t.type == "expense").map fun t => t.amount).sum := by
    unfold categoryData
    simpa using snd_sum_catFold ((getTransactions db).filter fun t => t.type == "expense") []
  refine ⟨?_, ?_, hsum, ?_⟩
  · unfold categoryData
    exact nodup_keys_catFold _ [] (by simp)
  · intro c
    unfold categoryData
    have h := alookup_catFold ((getTransactions db).filter fun t => t.type == "expense") [] c
    simpa [alookup] using h
  · intro h
    rw [getStats_of_nonempty h, hsum]
    dsimp only
    exact congrArg some
      ((((List.mergeSort_perm db.rows rowLe).filter fun t => t.type == "expense").map
        fun t => t.amount).sum_eq).symm

theorem categoryData_breakdown_witness :
    ((categoryData (getTransactions ⟨[⟨1, 3, "income", "salary", none, "2024-01-01", 0⟩,
        ⟨2, 4, "expense", "food", none, "2024-01-02", 1⟩], 3⟩)).map Prod.fst).Nodup ∧
    (getStats ⟨[⟨1, 3, "income", "salary", none, "2024-01-01", 0⟩,
        ⟨2, 4, "expense", "food", none, "2024-01-02", 1⟩], 3⟩).total_expense =
      some (((categoryData (getTransactions ⟨[⟨1, 3, "income", "salary", none, "2024-01-01", 0⟩,
        ⟨2, 4, "expense", "food", none, "2024-01-02", 1⟩], 3⟩)).map Prod.snd).sum) :=
  ⟨(categoryData_breakdown ⟨[⟨1, 3, "income", "salary", none, "2024-01-01", 0⟩,
      ⟨2, 4, "expense", "food", none, "2024-01-02", 1⟩], 3⟩).1,
   (categoryData_breakdown ⟨[⟨1, 3, "income", "salary", none, "2024-01-01", 0⟩,
      ⟨2, 4, "expense", "food", none, "2024-01-02", 1⟩], 3⟩).2.2.2 (by decide)⟩

/-- C7: `daily_breakdown` groups the listed records by exact date-string
match — the date keys are pairwise distinct, a date is present exactly
when some record carries it and then maps to precisely the records with
that date; each group's expense total is the sum of `amount` over the
group's members with `type = expense` (income excluded); the groups are
presented in strictly descending lexicographic order of the date keys. -/
theorem dailyGroups_partition (ts : List Row) :
    ((dailyGroups ts).map Prod.fst).Nodup ∧
    (∀ d : String,
      alookup d (dailyGroups ts) =
        if (ts.any fun t => t.date == d) then some (ts.filter fun t => t.date == d)
        else none) ∧
    (∀ d g, (d, g) ∈ dailyGroups ts →
      g = ts.filter (fun t => t.date == d) ∧
      dayExpenseTotal g =
        ((ts.filter fun t => t.type == "expense" && t.date == d).map fun t => t.amount).sum) ∧
    List.Pairwise (fun g1 g2 : String × List Row => g2.1 < g1.1) (dailyGroups ts) := by
  refine ⟨nodup_keys_dailyGroups ts, alookup_dailyGroups ts, ?_, ?_⟩
  · intro d g hm
    have hl := alookup_of_mem (nodup_keys_dailyGroups ts) hm
    rw [alookup_dailyGroups] at hl
    by_cases hany : (ts.any fun t => t.date == d) = true
    · rw [if_pos hany] at hl
      obtain rfl := (Option.some_inj.mp hl).symm
      refine ⟨rfl, ?_⟩
      unfold dayExpenseTotal
      rw [List.filter_filter]
    · rw [if_neg hany] at hl
      simp at hl
  · have hs := (List.sorted_mergeSort keyDesc_trans keyDesc_total (groupedByDate ts)).imp
      (fun h => (keyDesc_iff _ _).mp h)
    have hne : List.Pairwise (fun a b : String × List Row => a.1 ≠ b.1) (dailyGroups ts) :=
      List.pairwise_map.mp (nodup_keys_dailyGroups ts)
    exact (hs.and hne).imp fun h => lt_of_le_of_ne h.1 (Ne.symm h.2)

theorem dailyGroups_partition_witness :
    dayExpenseTotal
        (([⟨1, 3, "income", "salary", none, "2024-01-02", 0⟩,
           ⟨2, 4, "expense", "food", none, "2024-01-01", 1⟩] : List Row).filter
          fun t => t.date == "2024-01-01")
      = ((([⟨1, 3, "income", "salary", none, "2024-01-02", 0⟩,
            ⟨2, 4, "expense", "food", none, "2024-01-01", 1⟩] : List Row).filter
            fun t => t.type == "expense" && t.date == "2024-01-01").map fun t => t.amount).sum := by
  have hany : (([⟨1, 3, "income", "salary", none, "2024-01-02", 0⟩,
      ⟨2, 4, "expense", "food", none, "2024-01-01", 1⟩] : List Row).any
        fun t => t.date == "2024-01-01") = true := rfl
  have h2 := (dailyGroups_partition
    ([⟨1, 3, "income", "salary", none, "2024-01-02", 0⟩,
      ⟨2, 4, "expense", "food", none, "2024-01-01", 1⟩] : List Row)).2.1 "2024-01-01"
  rw [if_pos hany] at h2
  exact ((dailyGroups_partition
    ([⟨1, 3, "income", "salary", none, "2024-01-02", 0⟩,
      ⟨2, 4, "expense", "food", none, "2024-01-01", 1⟩] : List Row)).2.2.1 "2024-01-01" _
    (mem_of_alookup h2)).2

/-! ### The store invariant -/

lemma inv_init : Inv ⟨[], 1⟩ := by
  constructor
  · exact List.Pairwise.nil
  · intro r hr
    cases hr

lemma missingFields_eq_false {b : ReqBody} {a : ℚ} {ty c d : String}
    (hba : b.amount = some a) (ha : a ≠ 0) (hty : b.type = some ty) (hty0 : ty ≠ "")
    (hbc : b.category = some c) (hc : c ≠ "") (hbd : b.date = some d) (hd : d ≠ "") :
    missingFields b = false := by
  simp only [missingFields, hba, hty, hbc, hbd, falsyAmount, falsyStr,
    Bool.or_eq_false_iff, beq_eq_false_iff_ne]
  exact ⟨⟨⟨ha, hty0⟩, hc⟩, hd⟩

lemma inv_post (db : DB) (b : ReqBody) (now : Nat) (h : Inv db) :
    Inv (postTransaction db b now).1 := by
  unfold postTransaction
  by_cases hm : missingFields b = true
  · rw [if_pos hm]
    exact h
  · rw [if_neg hm]
    have hmf : missingFields b = false := by simpa using hm
    rcases hba : b.amount with _ | a <;> rcases hty : b.type with _ | ty <;>
      rcases hbc : b.category with _ | c <;> rcases hbd : b.date with _ | d <;>
      simp only [hba, hty, hbc, hbd] <;> try exact h
    rw [missingFields, hba, hty, hbc, hbd] at hmf
    simp only [falsyAmount, falsyStr, Bool.or_eq_false_iff, beq_eq_false_iff_ne] at hmf
    by_cases hts : (ty == "income" || ty == "expense") = true
    · rw [if_pos hts]
      rw [Bool.or_eq_true, beq_iff_eq, beq_iff_eq] at hts
      obtain ⟨hpw, hall⟩ := h
      constructor
      · rw [List.pairwise_append]
        refine ⟨hpw, List.pairwise_singleton _ _, ?_⟩
        intro r1 hr1 r2 hr2
        rw [List.mem_singleton] at hr2
        subst hr2
        exact (hall r1 hr1).1
      · intro r hr
        rcases List.mem_append.mp hr with hr | hr
        · obtain ⟨h1, h2, h3, h4, h5⟩ := hall r hr
          exact ⟨Nat.lt_succ_of_lt h1, h2, h3, h4, h5⟩
        · rw [List.mem_singleton] at hr
          subst hr
          exact ⟨Nat.lt_succ_self _, hts, hmf.1.1.1, hmf.1.2, hmf.2⟩
    · rw [if_neg hts]
      exact h

lemma inv_del (db : DB) (s : String) (h : Inv db) : Inv (deleteTransaction db s).1 := by
  unfold deleteTransaction
  cases hp : parseIdParam s with
  | none => exact h
  | some i =>
      obtain ⟨hpw, hall⟩ := h
      exact ⟨List.Pairwise.sublist (List.filter_sublist _) hpw,
        fun r hr => hall r (List.mem_filter.mp hr).1⟩

lemma inv_of_reachable {db : DB} (h : Reachable db) : Inv db := by
  induction h with
  | init => exact inv_init
  | post db b now _ ih => exact inv_post db b now ih
  | del db s _ ih => exact inv_del db s ih

/-! ### Claims about the store invariants -/

/-- C8 counterexample: the state reached by appending
`{amount: -5, type: "expense", category: "food", date: "2024-13-99"}`
to the fresh store is reachable, and its single record carries a negative
amount and a date string that is no calendar date — the claimed
invariants `amount > 0` and date validity fail on the code (only
JavaScript falsiness is checked, so `-5` and `"2024-13-99"` pass). -/
theorem reachable_state_violates_claimed_invariants :
    Reachable (postTransaction ⟨[], 1⟩
      ⟨some (-5), some "expense", some "food", none, some "2024-13-99"⟩ 0).1 ∧
    (postTransaction ⟨[], 1⟩
        ⟨some (-5), some "expense", some "food", none, some "2024-13-99"⟩ 0).1.rows
      = [⟨1, -5, "expense", "food", none, "2024-13-99", 0⟩] ∧
    ¬ (0 < (-5 : ℚ)) := by
  refine ⟨Reachable.post ⟨[], 1⟩ _ 0 Reachable.init, ?_, by norm_num⟩
  simp [postTransaction, missingFields, falsyAmount, falsyStr, beq_eq_false_iff_ne]

/-- C8 amended: every reachable store state satisfies the invariant
`Inv`: record ids strictly increase along insertion order (hence are
unique) and stay below the store's id counter (creations assign
monotonically increasing fresh ids); every stored `type` is income or
expense; and `amount`, `category`, `date` are non-falsy (amount nonzero,
category and date non-empty).  Records are immutable in place: after an
append every row is an unchanged old row or the single new one, and
after a delete every row is an unchanged old row.  The original claim's
`amount > 0` and calendar-date validity are NOT invariants (see the
counterexample). -/
theorem reachable_invariants (db : DB) (h : Reachable db) :
    Inv db ∧
    (∀ b now r, r ∈ (postTransaction db b now).1.rows → r ∈ db.rows ∨ r.id = db.nextId) ∧
    (∀ s r, r ∈ (deleteTransaction db s).1.rows → r ∈ db.rows) := by
  refine ⟨inv_of_reachable h, ?_, ?_⟩
  · intro b now r hr
    unfold postTransaction at hr
    by_cases hm : missingFields b = true
    · rw [if_pos hm] at hr
      exact Or.inl hr
    · rw [if_neg hm] at hr
      rcases hba : b.amount with _ | a <;> rcases hty : b.type with _ | ty <;>
        rcases hbc : b.category with _ | c <;> rcases hbd : b.date with _ | d <;>
        simp only [hba, hty, hbc, hbd] at hr <;> try exact Or.inl hr
      by_cases hts : (ty == "income" || ty == "expense") = true
      · rw [if_pos hts] at hr
        rcases List.mem_append.mp hr with hr | hr
        · exact Or.inl hr
        · rw [List.mem_singleton] at hr
          subst hr
          exact Or.inr rfl
      · rw [if_neg hts] at hr
        exact Or.inl hr
  · intro s r hr
    unfold deleteTransaction at hr
    cases hp : parseIdParam s with
    | none =>
        rw [hp] at hr
        exact hr
    | some i =>
        rw [hp] at hr
        exact (List.mem_filter.mp hr).1

theorem reachable_invariants_witness :
    Inv (postTransaction ⟨[], 1⟩
      ⟨some 5, some "income", some "salary", none, some "2024-01-01"⟩ 3).1 :=
  (reachable_invariants _
    (Reachable.post ⟨[], 1⟩ ⟨some 5, some "income", some "salary", none, some "2024-01-01"⟩ 3
      Reachable.init)).1

/-- C3: for every valid input — positive amount, `type` income or
expense, non-empty category and date — appended to any reachable store,
`append` succeeds returning the fresh id `nextId`; `list()` afterwards
contains exactly one record that carries the fresh id and matches the
appended fields (amount, type, category, description, date), and the
fresh id is distinct from every pre-existing record's id. -/
theorem post_then_list (db : DB) (hdb : Reachable db) (b : ReqBody) (now : Nat)
    (a : ℚ) (ty c d : String)
    (hba : b.amount = some a) (hpos : 0 < a)
    (hty : b.type = some ty) (htyv : ty = "income" ∨ ty = "expense")
    (hbc : b.category = some c) (hc : c ≠ "")
    (hbd : b.date = some d) (hd : d ≠ "") :
    (postTransaction db b now).2 = PostResult.ok db.nextId ∧
    (getTransactions (postTransaction db b now).1).countP
        (fun r => r.id == db.nextId && r.amount == a && r.type == ty && r.category == c &&
          r.description == b.description && r.date == d) = 1 ∧
    (∀ r ∈ db.rows, r.id ≠ db.nextId) := by
  have hty0 : ty ≠ "" := by
    rcases htyv with h | h <;> subst h <;> decide
  have hmf : missingFields b = false :=
    missingFields_eq_false hba (ne_of_gt hpos) hty hty0 hbc hc hbd hd
  have hts : (ty == "income" || ty == "expense") = true := by
    rw [Bool.or_eq_true, beq_iff_eq, beq_iff_eq]
    exact htyv
  have hfresh : ∀ r ∈ db.rows, r.id ≠ db.nextId := by
    intro r hr
    exact Nat.ne_of_lt ((inv_of_reachable hdb).2 r hr).1
  have hpost : postTransaction db b now =
      ({ rows := db.rows ++ [{ id := db.nextId, amount := a, type := ty, category := c,
                               description := b.description, date := d, created_at := now }],
         nextId := db.nextId + 1 }, PostResult.ok db.nextId) := by
    unfold postTransaction
    rw [if_neg (by simp [hmf])]
    simp only [hba, hty, hbc, hbd]
    rw [if_pos hts]
  refine ⟨by rw [hpost], ?_, hfresh⟩
  rw [hpost]
  unfold getTransactions
  dsimp only
  rw [List.Perm.countP_eq _ (List.mergeSort_perm _ rowLe), List.countP_append]
  have hold : (db.rows.countP
      fun r => r.id == db.nextId && r.amount == a && r.type == ty && r.category == c &&
        r.description == b.description && r.date == d) = 0 := by
    rw [List.countP_eq_zero]
    intro r hr hp
    have : (r.id == db.nextId) = true := by
      simp only [Bool.and_eq_true] at hp
      exact hp.1.1.1.1.1
    exact hfresh r hr (by simpa using this)
  rw [hold]
  simp

theorem post_then_list_witness :
    (postTransaction ⟨[], 1⟩ ⟨some 5, some "income", some "salary", none, some "2024-01-01"⟩ 7).2
        = PostResult.ok 1 ∧
    (getTransactions (postTransaction ⟨[], 1⟩
        ⟨some 5, some "income", some "salary", none, some "2024-01-01"⟩ 7).1).countP
        (fun r => r.id == 1 && r.amount == 5 && r.type == "income" && r.category == "salary" &&
          r.description == none && r.date == "2024-01-01") = 1 ∧
    (∀ r ∈ ([] : List Row), r.id ≠ 1) :=
  post_then_list ⟨[], 1⟩ Reachable.init
    ⟨some 5, some "income", some "salary", none, some "2024-01-01"⟩ 7
    5 "income" "salary" "2024-01-01" rfl (by norm_num) rfl (Or.inl rfl) rfl (by decide)
    rfl (by decide)

end Ledger
